import Mathlib

/-!
Shallow embedding of the block-sync iteration engine, the pedersen hash chain,
the re-execution gas cross-check, the p2p substream upgrades and the felt
conversions of the pathfinder repository, together with proofs settling the
frozen claims about them.
-/

namespace Pathfinder

/-! ## Big-endian byte encodings

Machine integers are modelled as `Nat`; byte strings as `List Nat` (each entry
one byte).  `natToBeBytes w n` is the `w`-byte big-endian encoding of `n`
(`u64::to_be_bytes`, `Felt::to_be_bytes`, `usize::to_be_bytes` are the widths
8 and 32); `beBytesVal` is the value a big-endian byte string denotes
(`u128::from_be_bytes`, `Felt::from_be_slice` read bytes this way). -/

/-- Value denoted by a big-endian byte string. -/
def beBytesVal (bs : List Nat) : Nat :=
  bs.foldl (fun acc b => acc * 256 + b) 0

/-- `w`-byte big-endian encoding of `n` (the low `w` bytes of `n`). -/
def natToBeBytes : Nat → Nat → List Nat
  | 0, _ => []
  | w + 1, n => natToBeBytes w (n / 256) ++ [n % 256]

/-- Modelled from the spec: `Felt::from_be_slice` lives in the crypto crate's
field-element primitives, which the spec excludes from these sources; per the
spec's glossary a Felt is a 251-bit unsigned integer, and the call sites in
`chain.rs` expect slices of at most 32 bytes whose value fits in 251 bits, so
the conversion succeeds exactly on such slices and denotes their big-endian
value. -/
def feltFromBeSlice (bs : List Nat) : Option Nat :=
  if bs.length ≤ 32 ∧ beBytesVal bs < 2 ^ 251 then some (beBytesVal bs) else none

/-! ## Sync handlers: the iteration engine (`sync_handlers.rs`) -/

/-- The `Fin` response marker of the sync protocol (`Fin::ok()`,
`Fin::unknown()`, `Fin::too_much()`).  Named `FinV` because `Fin` would clash
with the Lean type of bounded naturals. -/
inductive FinV
  | ok
  | unknown
  | tooMuch
deriving DecidableEq, Repr

/-- A response frame: either one payload item of block data, or a `Fin`
marker.  This is the shape shared by `BlockHeadersResponsePart`,
`TransactionsResponse`, … : every variant is either block data or `Fin`. -/
inductive Frame (α : Type)
  | payload (a : α)
  | fin (f : FinV)
deriving DecidableEq, Repr

/-- `Direction` of an iteration. -/
inductive Direction
  | forward
  | backward
deriving DecidableEq, Repr

/-- `BlockNumberOrHash`: the `start` field of an `Iteration`. -/
inductive BlockNumberOrHash
  | number (n : Nat)
  | hash (h : Nat)
deriving DecidableEq, Repr

/-- The `Iteration` request descriptor. -/
structure Iteration where
  start : BlockNumberOrHash
  direction : Direction
  limit : Nat
  step : Nat
deriving DecidableEq, Repr

/-- `MAX_BLOCKS_COUNT` (non-test build). -/
def MAX_BLOCKS_COUNT : Nat := 100

/-- Modelled from the spec: `BlockNumber::new` lives in `pathfinder_common`,
outside these sources; the spec (§3) fixes a `BlockNumber` as a dense
unsigned 64-bit integer, so construction succeeds exactly below `2 ^ 64`. -/
def blockNumberNew (n : Nat) : Option Nat :=
  if n < 2 ^ 64 then some n else none

/-- `u64::checked_add`. -/
def checkedAddU64 (a b : Nat) : Option Nat :=
  if a + b < 2 ^ 64 then some (a + b) else none

/-- `u64::checked_sub`. -/
def checkedSubU64 (a b : Nat) : Option Nat :=
  if b ≤ a then some (a - b) else none

/-- `get_next_block_number`: next block number considering direction; `none`
when out of bounds. -/
def get_next_block_number (current step : Nat) (direction : Direction) : Option Nat :=
  match direction with
  | .forward => (checkedAddU64 current step).bind blockNumberNew
  | .backward => (checkedSubU64 current step).bind blockNumberNew

/-- `get_start_block_number`: resolve the `start` of an iteration.  A number is
validated by `BlockNumber::new`; a hash is looked up through the transaction's
`block_id` query, modelled by the pure map `dbHash` from hash to the block
number stored for it. -/
def get_start_block_number (start : BlockNumberOrHash) (dbHash : Nat → Option Nat) :
    Option Nat :=
  match start with
  | .number n => blockNumberNew n
  | .hash h => dbHash h

/-- The `for i in 0..limit` loop of `iterate`.  The block handler is modelled
as `h : Nat → Option (List (Frame α))`: `h bn = some frames` when the handler
returns `Ok(true)` having appended `frames` (the handlers append nothing when
they return `Ok(false)`).  The second argument counts the remaining
iterations, so `i < limit - 1` in the source is `r ≥ 1` here.  The result is
the appended frames together with the marker the loop sets when it breaks
(`Fin::unknown()` both for a missing block and for an out-of-range next block
number); `none` means the loop ran to completion, leaving any pending marker
untouched. -/
def iterateLoop (h : Nat → Option (List (Frame α))) (step : Nat) (dir : Direction) :
    Nat → Nat → List (Frame α) × Option FinV
  | _, 0 => ([], none)
  | bn, r + 1 =>
    match h bn with
    | none => ([], some FinV.unknown)
    | some frames =>
      if r = 0 then (frames, none)
      else
        match get_next_block_number bn step dir with
        | none => (frames, some FinV.unknown)
        | some nxt =>
          let rest := iterateLoop h step dir nxt r
          (frames ++ rest.1, rest.2)

/-- The blocks the loop of `iterate` visits successfully (handler returned
`Ok(true)`), in visiting order.  Mirrors the branching of `iterateLoop`. -/
def visitedFrom (h : Nat → Option (List (Frame α))) (step : Nat) (dir : Direction) :
    Nat → Nat → List Nat
  | _, 0 => []
  | bn, r + 1 =>
    match h bn with
    | none => []
    | some _ =>
      if r = 0 then [bn]
      else
        match get_next_block_number bn step dir with
        | none => [bn]
        | some nxt => bn :: visitedFrom h step dir nxt r

/-- Body of `iterate`, split into the frames pushed by the handlers and the
`Fin` frame `iterate` itself appends (if any): the `limit == 0` early return
pushes `Fin::ok()`, an unresolvable start pushes `Fin::unknown()`, and
otherwise the loop's break marker — falling back to the pending
`Fin::too_much()` set when `limit` was clamped — is appended at the end. -/
def iterateCore (dbHash : Nat → Option Nat) (h : Nat → Option (List (Frame α)))
    (it : Iteration) : List (Frame α) × Option FinV :=
  if it.limit = 0 then ([], some FinV.ok)
  else
    match get_start_block_number it.start dbHash with
    | none => ([], some FinV.unknown)
    | some start =>
      let clampedLimit := if it.limit > MAX_BLOCKS_COUNT then MAX_BLOCKS_COUNT else it.limit
      let pendingMarker : Option FinV :=
        if it.limit > MAX_BLOCKS_COUNT then some FinV.tooMuch else none
      let r := iterateLoop h it.step it.direction start clampedLimit
      (r.1, match r.2 with
        | some m => some m
        | none => pendingMarker)

/-- `iterate`: the response vector — the handler frames followed by the `Fin`
frame `iterate` itself appends, when there is one. -/
def iterate (dbHash : Nat → Option Nat) (h : Nat → Option (List (Frame α)))
    (it : Iteration) : List (Frame α) :=
  (iterateCore dbHash h it).1 ++ ((iterateCore dbHash h it).2.map Frame.fin).toList

/-- The iteration-level `Fin` frame `iterate` appends on its own (as opposed
to the per-block `Fin::ok()` markers appended by the handlers), if any. -/
def iterLevelFin (dbHash : Nat → Option Nat) (h : Nat → Option (List (Frame α)))
    (it : Iteration) : Option FinV :=
  (iterateCore dbHash h it).2

/-- A payload group: what a block handler appends for one existing block —
some payload frames sealed by a single `Fin::ok()`. -/
def IsGroup (l : List (Frame α)) : Prop :=
  ∃ ps : List α, l = ps.map Frame.payload ++ [Frame.fin FinV.ok]

/-- The contract of the block handlers (`get_header`, `get_body`, …): whenever
a handler reports success it has appended exactly one payload group. -/
def HandlerContract (h : Nat → Option (List (Frame α))) : Prop :=
  ∀ bn l, h bn = some l → IsGroup l

/-- Database view used by `get_header`: the `block_header` and `signature`
queries of a storage transaction, as pure maps from block number. -/
structure HeaderDb (H S : Type) where
  block_header : Nat → Option H
  signature : Nat → Option S

/-- Payload items of a headers response part: a `Header` or a `Signatures`
part carrying the block number it pertains to. -/
inductive HeaderPayload (H S : Type)
  | header (hd : H)
  | signatures (blockNumber : Nat) (sig : S)
deriving DecidableEq, Repr

/-- `get_header`: look up the header; if absent report `false` (modelled
`none`); otherwise append the `Header` part, a `Signatures` part when a
signature is stored, and `Fin::ok()`. -/
def get_header (db : HeaderDb H S) (bn : Nat) :
    Option (List (Frame (HeaderPayload H S))) :=
  match db.block_header bn with
  | none => none
  | some hd =>
    some ((Frame.payload (HeaderPayload.header hd) ::
      ((db.signature bn).map
        (fun s => Frame.payload (HeaderPayload.signatures bn s))).toList)
      ++ [Frame.fin FinV.ok])

/-! ## Hash chain (`crypto/src/hash/pedersen/chain.rs`)

The pedersen hash itself is an excluded collaborator of the spec; it is taken
as an abstract binary operation `H` on field elements (modelled as `Nat`). -/

/-- `HashChain`: accumulator `hash` and number of hashed values `count`. -/
structure HashChain where
  hash : Nat
  count : Nat
deriving DecidableEq, Repr

/-- `HashChain::default()`: `(acc = 0, count = 0)` (`Felt` defaults to 0). -/
def HashChain.default : HashChain := { hash := 0, count := 0 }

/-- `HashChain::update`: replace the accumulator by `H(acc, value)` and
increment the count. -/
def HashChain.update (H : Nat → Nat → Nat) (c : HashChain) (value : Nat) : HashChain :=
  { hash := H c.hash value, count := c.count + 1 }

/-- A sequence of `update` calls, one per list element, in order. -/
def HashChain.updates (H : Nat → Nat → Nat) (c : HashChain) (vs : List Nat) : HashChain :=
  vs.foldl (HashChain.update H) c

/-- `HashChain::finalize`: hash the accumulator with the count, the count
encoded big-endian (`usize::to_be_bytes`, 8 bytes) into a field element.
`none` models the `expect` failing (it cannot: a usize fits in 251 bits). -/
def HashChain.finalize (H : Nat → Nat → Nat) (c : HashChain) : Option Nat :=
  (feltFromBeSlice (natToBeBytes 8 c.count)).map (H c.hash)

/-- `HashChain::single`: `default().chain_update(value).finalize()`. -/
def HashChain.single (H : Nat → Nat → Nat) (value : Nat) : Option Nat :=
  HashChain.finalize H (HashChain.update H HashChain.default value)

/-! ## Re-execution gas cross-check (`examples/re_execute.rs`) -/

/-- How `execute` reads a receipt's recorded fee: the 32-byte big-endian
encoding of the fee field element, bytes 16.. (the low 16 bytes), read as a
`u128` (`u128::from_be_bytes(actual_fee.0.to_be_bytes()[16..])`). -/
def feeFromReceipt (feeFelt : Nat) : Nat :=
  beBytesVal ((natToBeBytes 32 feeFelt).drop 16)

/-- The per-`(estimate, receipt)` warning decision inside `execute`:
`actual_fee` is the receipt's optional fee field element; an absent fee or a
zero read fee is skipped (no warning); otherwise warn when
`abs_diff(actual_gas, estimated_gas) > actual_gas * 2 / 10` in `u128`
arithmetic, with `actual_gas = fee / gas_price.max(1)`.  The `u128`
multiplication `actual_gas * 2` wraps, hence the `% 2 ^ 128`. -/
def gasMismatchWarn (gas_price : Nat) (actual_fee : Option Nat) (estimated_gas : Nat) :
    Bool :=
  match actual_fee with
  | none => false
  | some feeFelt =>
    let fee := feeFromReceipt feeFelt
    if fee = 0 then false
    else
      let actual_gas_consumed := fee / max gas_price 1
      let diff := max actual_gas_consumed estimated_gas
                    - min actual_gas_consumed estimated_gas
      decide (diff > actual_gas_consumed * 2 % 2 ^ 128 / 10)

/-! ## Substream upgrades (`p2p_stream/src/handler/protocol.rs`)

`void::Void` is the uninhabited error type; `Empty` models it. -/

/-- `Protocol::upgrade_inbound`: yields the stream and the negotiated protocol
name unchanged; the error type is uninhabited. -/
def upgrade_inbound (io : S) (protocol : P) : Except Empty (S × P) :=
  Except.ok (io, protocol)

/-- `Protocol::upgrade_outbound`: same output shape as the inbound upgrade. -/
def upgrade_outbound (io : S) (protocol : P) : Except Empty (S × P) :=
  Except.ok (io, protocol)

/-! ## Felt conversions (`executor/src/felt.rs`)

Modelled from the spec: `StarkFelt` (starknet_api) and the byte accessors of
`Felt` live outside these sources; per the spec's glossary both are field
elements — 251-bit unsigned integers — stored as 32-byte big-endian strings.
`StarkFelt::new` validates a 32-byte string, `StarkFelt::bytes` returns the
stored string, `Felt::to_be_bytes` encodes and `Felt::from_be_slice` decodes
(see `feltFromBeSlice`). -/

/-- Modelled from the spec: `StarkFelt::new` accepts exactly the 32-byte
big-endian strings denoting a field element (a 251-bit value). -/
def starkFeltNew (bs : List Nat) : Option Nat :=
  if bs.length = 32 ∧ beBytesVal bs < 2 ^ 251 then some (beBytesVal bs) else none

/-- `IntoFelt::into_felt` for `StarkFelt`:
`Felt::from_be_slice(self.bytes())`; `none` models the `expect` failing. -/
def into_felt (s : Nat) : Option Nat :=
  feltFromBeSlice (natToBeBytes 32 s)

/-- `IntoStarkFelt::into_starkfelt` for `Felt`:
`StarkFelt::new(self.to_be_bytes())`; `none` models the `expect` failing. -/
def into_starkfelt (f : Nat) : Option Nat :=
  starkFeltNew (natToBeBytes 32 f)

/-! ## Concrete fixtures used by the witnesses and counterexamples -/

/-- A two-block header database: headers for blocks 0 and 1, no signatures. -/
def wHeaderDb : HeaderDb Nat Nat :=
  { block_header := fun bn => if bn < 2 then some bn else none
    signature := fun _ => none }

/-- A handler over a database holding every block. -/
def wTotalHandler : Nat → Option (List (Frame Nat)) :=
  fun bn => some [Frame.payload bn, Frame.fin FinV.ok]

/-- A handler over an empty database (no block exists). -/
def wNoneHandler : Nat → Option (List (Frame Nat)) :=
  fun _ => none

/-- A handler holding only block 5. -/
def wBlock5Handler : Nat → Option (List (Frame Nat)) :=
  fun bn => if bn = 5 then some [Frame.payload 0, Frame.fin FinV.ok] else none

/-- An empty hash-to-number index. -/
def wNoHash : Nat → Option Nat :=
  fun _ => none

/-! ## Helper lemmas: byte encodings -/

theorem beBytesVal_concat (l : List Nat) (b : Nat) :
    beBytesVal (l ++ [b]) = beBytesVal l * 256 + b := by
  simp [beBytesVal, List.foldl_append]

theorem natToBeBytes_length : ∀ w n, (natToBeBytes w n).length = w
  | 0, _ => rfl
  | w + 1, n => by simp [natToBeBytes, natToBeBytes_length w]

theorem beBytesVal_natToBeBytes : ∀ w n, beBytesVal (natToBeBytes w n) = n % 256 ^ w := by
  intro w
  induction w with
  | zero => intro n; simp [natToBeBytes, beBytesVal, Nat.mod_one]
  | succ w ih =>
    intro n
    rw [natToBeBytes, beBytesVal_concat, ih]
    have h1 : (256 : Nat) ^ (w + 1) = 256 * 256 ^ w := by
      rw [pow_succ, Nat.mul_comm]
    rw [h1, Nat.mod_mul]
    ring

theorem natToBeBytes_split : ∀ b a n,
    natToBeBytes (a + b) n = natToBeBytes a (n / 256 ^ b) ++ natToBeBytes b n := by
  intro b
  induction b with
  | zero => intro a n; simp [natToBeBytes]
  | succ b ih =>
    intro a n
    have h2 : n / 256 / 256 ^ b = n / 256 ^ (b + 1) := by
      rw [Nat.div_div_eq_div_mul, pow_succ, Nat.mul_comm]
    calc natToBeBytes (a + (b + 1)) n
        = natToBeBytes (a + b) (n / 256) ++ [n % 256] := by
          rw [show a + (b + 1) = (a + b) + 1 from by omega, natToBeBytes]
      _ = (natToBeBytes a (n / 256 / 256 ^ b) ++ natToBeBytes b (n / 256)) ++ [n % 256] := by
          rw [ih]
      _ = natToBeBytes a (n / 256 ^ (b + 1)) ++ (natToBeBytes b (n / 256) ++ [n % 256]) := by
          rw [h2, List.append_assoc]
      _ = natToBeBytes a (n / 256 ^ (b + 1)) ++ natToBeBytes (b + 1) n := by
          simp [natToBeBytes]

theorem natToBeBytes32_drop16 (n : Nat) :
    (natToBeBytes 32 n).drop 16 = natToBeBytes 16 n := by
  have h := natToBeBytes_split 16 16 n
  norm_num at h
  rw [h]
  have hd := List.drop_left (natToBeBytes 16 (n / 256 ^ 16)) (natToBeBytes 16 n)
  rw [natToBeBytes_length 16 (n / 256 ^ 16)] at hd
  exact hd

theorem feeFromReceipt_eq (n : Nat) : feeFromReceipt n = n % 2 ^ 128 := by
  rw [feeFromReceipt, natToBeBytes32_drop16, beBytesVal_natToBeBytes]
  norm_num

/-! ## Helper lemmas: the iteration loop -/

theorem iterateLoop_spec {α : Type} (h : Nat → Option (List (Frame α))) (step : Nat)
    (dir : Direction) :
    ∀ fuel bn,
      (iterateLoop h step dir bn fuel).1
          = ((visitedFrom h step dir bn fuel).map (fun b => (h b).getD [])).flatten
        ∧ (iterateLoop h step dir bn fuel).2
          = (if (visitedFrom h step dir bn fuel).length < fuel then some FinV.unknown
             else none) := by
  intro fuel
  induction fuel with
  | zero => intro bn; simp [iterateLoop, visitedFrom]
  | succ r ih =>
    intro bn
    cases hh : h bn with
    | none => simp [iterateLoop, visitedFrom, hh]
    | some frames =>
      by_cases hr : r = 0
      · subst hr
        simp [iterateLoop, visitedFrom, hh]
      · cases hn : get_next_block_number bn step dir with
        | none =>
          have h1 : 1 < r + 1 := by omega
          simp [iterateLoop, visitedFrom, hh, hn, hr, h1]
        | some nxt =>
          have hrec := ih nxt
          simp [iterateLoop, visitedFrom, hh, hn, hr, hrec.1, hrec.2,
            Nat.add_lt_add_iff_right]

theorem visitedFrom_length_le {α : Type} (h : Nat → Option (List (Frame α))) (step : Nat)
    (dir : Direction) : ∀ fuel bn, (visitedFrom h step dir bn fuel).length ≤ fuel := by
  intro fuel
  induction fuel with
  | zero => intro bn; simp [visitedFrom]
  | succ r ih =>
    intro bn
    cases hh : h bn with
    | none => simp [visitedFrom, hh]
    | some frames =>
      by_cases hr : r = 0
      · subst hr; simp [visitedFrom, hh]
      · cases hn : get_next_block_number bn step dir with
        | none =>
          simp only [visitedFrom, hh, hr, if_neg hr, hn]
          simp
        | some nxt =>
          simp only [visitedFrom, hh, hr, if_neg hr, hn, List.length_cons]
          exact Nat.succ_le_succ (ih nxt)

theorem visitedFrom_mem_isSome {α : Type} (h : Nat → Option (List (Frame α))) (step : Nat)
    (dir : Direction) :
    ∀ fuel bn b, b ∈ visitedFrom h step dir bn fuel → ∃ l, h b = some l := by
  intro fuel
  induction fuel with
  | zero => intro bn b hb; simp [visitedFrom] at hb
  | succ r ih =>
    intro bn b hb
    cases hh : h bn with
    | none => simp [visitedFrom, hh] at hb
    | some frames =>
      by_cases hr : r = 0
      · subst hr
        simp [visitedFrom, hh] at hb
        exact ⟨frames, hb ▸ hh⟩
      · cases hn : get_next_block_number bn step dir with
        | none =>
          simp [visitedFrom, hh, hr, hn] at hb
          exact ⟨frames, hb ▸ hh⟩
        | some nxt =>
          simp [visitedFrom, hh, hr, hn] at hb
          rcases hb with hb | hb
          · exact ⟨frames, hb ▸ hh⟩
          · exact ih nxt b hb

theorem iterateCore_resolved {α : Type} (dbHash : Nat → Option Nat)
    (h : Nat → Option (List (Frame α))) (start : BlockNumberOrHash) (dir : Direction)
    (step limit s : Nat) (h1 : limit ≠ 0)
    (hs : get_start_block_number start dbHash = some s) :
    iterateCore dbHash h ⟨start, dir, limit, step⟩
      = ((iterateLoop h step dir s
            (if limit > MAX_BLOCKS_COUNT then MAX_BLOCKS_COUNT else limit)).1,
         match (iterateLoop h step dir s
            (if limit > MAX_BLOCKS_COUNT then MAX_BLOCKS_COUNT else limit)).2 with
         | some m => some m
         | none => if limit > MAX_BLOCKS_COUNT then some FinV.tooMuch else none) := by
  simp [iterateCore, h1, hs]

theorem get_header_contract {H S : Type} (db : HeaderDb H S) :
    HandlerContract (get_header db) := by
  intro bn l hl
  unfold get_header at hl
  cases hdb : db.block_header bn with
  | none => rw [hdb] at hl; simp at hl
  | some hd =>
    rw [hdb] at hl
    cases hsig : db.signature bn with
    | none =>
      rw [hsig] at hl; simp at hl
      exact ⟨[HeaderPayload.header hd], by simp [← hl]⟩
    | some sg =>
      rw [hsig] at hl; simp at hl
      exact ⟨[HeaderPayload.header hd, HeaderPayload.signatures bn sg], by simp [← hl]⟩

/-! ## Claims -/

/-- C1: for every iteration request with `1 ≤ limit ≤ MAX_BLOCKS_COUNT` whose
start resolves to a valid block number, and every handler obeying the block
handler contract, the vector returned by `iterate` consists of exactly one
payload group per existing visited block — each sealed by the handler's
`Fin::ok()` — that is, `min(limit, reachable)` groups (the visited-block list
is capped at `limit`, so its length is that minimum), followed by a single
`Fin::unknown()` frame exactly when fewer than `limit` blocks were reachable
(a visited block was missing or the next block number left the valid range);
when all `limit` blocks exist nothing is appended after the last group's
`Fin::ok()`. -/
theorem c1_iteration_completeness {α : Type} (dbHash : Nat → Option Nat)
    (h : Nat → Option (List (Frame α))) (hc : HandlerContract h)
    (start : BlockNumberOrHash) (dir : Direction) (step limit s : Nat)
    (h1 : 1 ≤ limit) (h2 : limit ≤ MAX_BLOCKS_COUNT)
    (hs : get_start_block_number start dbHash = some s) :
    (∀ b ∈ visitedFrom h step dir s limit, IsGroup ((h b).getD [])) ∧
    (visitedFrom h step dir s limit).length ≤ limit ∧
    iterate dbHash h ⟨start, dir, limit, step⟩
      = ((visitedFrom h step dir s limit).map (fun b => (h b).getD [])).flatten
        ++ (if (visitedFrom h step dir s limit).length < limit
            then [Frame.fin FinV.unknown] else []) := by
  have hne : limit ≠ 0 := by omega
  have hnm : ¬ (limit > MAX_BLOCKS_COUNT) := by omega
  have hcore := iterateCore_resolved dbHash h start dir step limit s hne hs
  simp only [if_neg hnm] at hcore
  have hloop := iterateLoop_spec h step dir limit s
  refine ⟨?_, visitedFrom_length_le h step dir limit s, ?_⟩
  · intro b hb
    obtain ⟨l, hl⟩ := visitedFrom_mem_isSome h step dir limit s b hb
    simpa [hl] using hc b l hl
  · rw [iterate, hcore]
    by_cases hlt : (visitedFrom h step dir s limit).length < limit
    · simp [hloop.1, hloop.2, hlt]
    · simp [hloop.1, hloop.2, hlt]

/-- Witness for C1 on a two-block database: blocks 0 and 1 exist, the request
asks for 3 blocks forward from 0, so two sealed groups are produced and the
response ends with `Fin::unknown()`. -/
theorem c1_witness :
    (1 ≤ 3) ∧ (3 ≤ MAX_BLOCKS_COUNT) ∧
    (get_start_block_number (BlockNumberOrHash.number 0) wNoHash = some 0) ∧
    ((∀ b ∈ visitedFrom (get_header wHeaderDb) 1 Direction.forward 0 3,
        IsGroup ((get_header wHeaderDb b).getD [])) ∧
     (visitedFrom (get_header wHeaderDb) 1 Direction.forward 0 3).length ≤ 3 ∧
     iterate wNoHash (get_header wHeaderDb)
         ⟨BlockNumberOrHash.number 0, Direction.forward, 3, 1⟩
       = ((visitedFrom (get_header wHeaderDb) 1 Direction.forward 0 3).map
            (fun b => (get_header wHeaderDb b).getD [])).flatten
         ++ (if (visitedFrom (get_header wHeaderDb) 1 Direction.forward 0 3).length < 3
             then [Frame.fin FinV.unknown] else [])) :=
  ⟨by decide, by decide, by rfl,
   c1_iteration_completeness wNoHash (get_header wHeaderDb) (get_header_contract wHeaderDb)
     (BlockNumberOrHash.number 0) Direction.forward 1 3 0 (by decide) (by decide) (by rfl)⟩

/-- C2 counterexample: a request with `limit = 101 > MAX_BLOCKS_COUNT` and a
resolvable start on an empty database returns the single frame
`Fin::unknown()` — zero payload groups and no terminal `Fin::too_much()` —
because the loop's break on a missing block overwrites the pending
`Fin::too_much()` marker. -/
theorem c2_counterexample :
    get_start_block_number (BlockNumberOrHash.number 0) wNoHash = some 0 ∧
    iterate wNoHash wNoneHandler ⟨BlockNumberOrHash.number 0, Direction.forward, 101, 1⟩
      = [Frame.fin FinV.unknown] :=
  ⟨rfl, rfl⟩

/-- C2 (amended): for every iteration request with `limit > MAX_BLOCKS_COUNT`
and a resolvable start, *provided all `MAX_BLOCKS_COUNT` clamped visited
blocks exist*, the response produced by `iterate` contains exactly
`MAX_BLOCKS_COUNT` payload groups and its last frame is `Fin::too_much()`. -/
theorem c2_ceiling_enforcement {α : Type} (dbHash : Nat → Option Nat)
    (h : Nat → Option (List (Frame α))) (hc : HandlerContract h)
    (start : BlockNumberOrHash) (dir : Direction) (step limit s : Nat)
    (hlim : limit > MAX_BLOCKS_COUNT)
    (hs : get_start_block_number start dbHash = some s)
    (hreach : (visitedFrom h step dir s MAX_BLOCKS_COUNT).length = MAX_BLOCKS_COUNT) :
    (∀ b ∈ visitedFrom h step dir s MAX_BLOCKS_COUNT, IsGroup ((h b).getD [])) ∧
    (visitedFrom h step dir s MAX_BLOCKS_COUNT).length = MAX_BLOCKS_COUNT ∧
    iterate dbHash h ⟨start, dir, limit, step⟩
      = ((visitedFrom h step dir s MAX_BLOCKS_COUNT).map
          (fun b => (h b).getD [])).flatten ++ [Frame.fin FinV.tooMuch] ∧
    (iterate dbHash h ⟨start, dir, limit, step⟩).getLast?
      = some (Frame.fin FinV.tooMuch) := by
  have hne : limit ≠ 0 := by
    have := MAX_BLOCKS_COUNT
    omega
  have hcore := iterateCore_resolved dbHash h start dir step limit s hne hs
  simp only [if_pos hlim] at hcore
  have hloop := iterateLoop_spec h step dir MAX_BLOCKS_COUNT s
  have hmarker : (iterateLoop h step dir s MAX_BLOCKS_COUNT).2 = none := by
    rw [hloop.2, hreach]
    simp
  have hiter : iterate dbHash h ⟨start, dir, limit, step⟩
      = ((visitedFrom h step dir s MAX_BLOCKS_COUNT).map
          (fun b => (h b).getD [])).flatten ++ [Frame.fin FinV.tooMuch] := by
    rw [iterate, hcore]
    simp [hloop.1, hmarker]
  refine ⟨?_, hreach, hiter, ?_⟩
  · intro b hb
    obtain ⟨l, hl⟩ := visitedFrom_mem_isSome h step dir MAX_BLOCKS_COUNT s b hb
    simpa [hl] using hc b l hl
  · rw [hiter]
    exact List.getLast?_concat _

theorem wTotalHandler_contract : HandlerContract wTotalHandler := by
  intro bn l hl
  simp [wTotalHandler] at hl
  exact ⟨[bn], by simp [← hl]⟩

/-- Witness for the amended C2: with every block present, the request
`(start = 0, forward, step = 1, limit = 101)` yields 100 sealed groups and a
terminal `Fin::too_much()`. -/
theorem c2_witness :
    (101 > MAX_BLOCKS_COUNT) ∧
    (get_start_block_number (BlockNumberOrHash.number 0) wNoHash = some 0) ∧
    ((∀ b ∈ visitedFrom wTotalHandler 1 Direction.forward 0 MAX_BLOCKS_COUNT,
        IsGroup ((wTotalHandler b).getD [])) ∧
     (visitedFrom wTotalHandler 1 Direction.forward 0 MAX_BLOCKS_COUNT).length
        = MAX_BLOCKS_COUNT ∧
     iterate wNoHash wTotalHandler ⟨BlockNumberOrHash.number 0, Direction.forward, 101, 1⟩
       = ((visitedFrom wTotalHandler 1 Direction.forward 0 MAX_BLOCKS_COUNT).map
            (fun b => (wTotalHandler b).getD [])).flatten ++ [Frame.fin FinV.tooMuch] ∧
     (iterate wNoHash wTotalHandler
         ⟨BlockNumberOrHash.number 0, Direction.forward, 101, 1⟩).getLast?
       = some (Frame.fin FinV.tooMuch)) :=
  ⟨by decide, by rfl,
   c2_ceiling_enforcement wNoHash wTotalHandler wTotalHandler_contract
     (BlockNumberOrHash.number 0) Direction.forward 1 101 0 (by decide) (by rfl) (by rfl)⟩

/-- C3 counterexample: with `limit = 0` the single response frame is an
iteration-level `Fin::ok()` (the handler is never consulted), contradicting
"the terminal is never `Fin::ok()`"; and on a fully successful run
(`limit = 1`, block present) `iterate` appends no iteration-level terminal at
all, contradicting "exactly one" — the closing `Fin::ok()` is the handler's
per-block marker. -/
theorem c3_counterexample :
    iterLevelFin wNoHash wNoneHandler
        ⟨BlockNumberOrHash.number 0, Direction.forward, 0, 1⟩ = some FinV.ok ∧
    iterate wNoHash wNoneHandler ⟨BlockNumberOrHash.number 0, Direction.forward, 0, 1⟩
      = [Frame.fin FinV.ok] ∧
    iterLevelFin wNoHash wTotalHandler
        ⟨BlockNumberOrHash.number 0, Direction.forward, 1, 1⟩ = none ∧
    iterate wNoHash wTotalHandler ⟨BlockNumberOrHash.number 0, Direction.forward, 1, 1⟩
      = [Frame.payload 0, Frame.fin FinV.ok] :=
  ⟨rfl, rfl, rfl, rfl⟩

theorem iterLevelFin_resolved {α : Type} (dbHash : Nat → Option Nat)
    (h : Nat → Option (List (Frame α))) (start : BlockNumberOrHash) (dir : Direction)
    (step limit s : Nat) (h1 : limit ≠ 0)
    (hs : get_start_block_number start dbHash = some s) :
    iterLevelFin dbHash h ⟨start, dir, limit, step⟩
      = if limit > MAX_BLOCKS_COUNT then
          (if (visitedFrom h step dir s MAX_BLOCKS_COUNT).length < MAX_BLOCKS_COUNT
           then some FinV.unknown else some FinV.tooMuch)
        else
          (if (visitedFrom h step dir s limit).length < limit
           then some FinV.unknown else none) := by
  have hcore := iterateCore_resolved dbHash h start dir step limit s h1 hs
  rw [iterLevelFin, hcore]
  by_cases hm : limit > MAX_BLOCKS_COUNT
  · simp only [if_pos hm]
    rw [(iterateLoop_spec h step dir MAX_BLOCKS_COUNT s).2]
    by_cases hlt : (visitedFrom h step dir s MAX_BLOCKS_COUNT).length < MAX_BLOCKS_COUNT
    · simp [hlt]
    · simp [hlt]
  · simp only [if_neg hm]
    rw [(iterateLoop_spec h step dir limit s).2]
    by_cases hlt : (visitedFrom h step dir s limit).length < limit
    · simp [hlt]
    · simp [hlt]

/-- C3 (amended): for every iteration request with `limit ≥ 1`, `iterate`
appends at most one iteration-level terminal `Fin`, which is never
`Fin::ok()`; no terminal is appended exactly when the run was fully
successful: the limit was within the ceiling, the start resolved, and all
`limit` visited blocks existed.  (For `limit = 0` the response is the single
iteration-level `Fin::ok()`, see the counterexample.) -/
theorem c3_terminal_fin {α : Type} (dbHash : Nat → Option Nat)
    (h : Nat → Option (List (Frame α))) (start : BlockNumberOrHash) (dir : Direction)
    (step limit : Nat) (h1 : 1 ≤ limit) :
    iterLevelFin dbHash h ⟨start, dir, limit, step⟩ ≠ some FinV.ok ∧
    (iterLevelFin dbHash h ⟨start, dir, limit, step⟩ = none ↔
      limit ≤ MAX_BLOCKS_COUNT ∧
      ∃ s, get_start_block_number start dbHash = some s ∧
        (visitedFrom h step dir s limit).length = limit) := by
  have hne : limit ≠ 0 := by omega
  cases hs : get_start_block_number start dbHash with
  | none =>
    have hlf : iterLevelFin dbHash h ⟨start, dir, limit, step⟩ = some FinV.unknown := by
      simp [iterLevelFin, iterateCore, hne, hs]
    rw [hlf]
    constructor
    · simp
    · constructor
      · intro hcontra; simp at hcontra
      · rintro ⟨-, t, hts, -⟩
        simp at hts
  | some s =>
    have hlf := iterLevelFin_resolved dbHash h start dir step limit s hne hs
    have hlen := visitedFrom_length_le h step dir limit s
    rw [hlf]
    by_cases hm : limit > MAX_BLOCKS_COUNT
    · simp only [if_pos hm]
      constructor
      · by_cases hlt :
            (visitedFrom h step dir s MAX_BLOCKS_COUNT).length < MAX_BLOCKS_COUNT <;>
          simp [hlt]
      · constructor
        · intro hcontra
          by_cases hlt :
              (visitedFrom h step dir s MAX_BLOCKS_COUNT).length < MAX_BLOCKS_COUNT <;>
            simp [hlt] at hcontra
        · rintro ⟨hle, -⟩
          omega
    · simp only [if_neg hm]
      constructor
      · by_cases hlt : (visitedFrom h step dir s limit).length < limit <;> simp [hlt]
      · constructor
        · intro hnone
          by_cases hlt : (visitedFrom h step dir s limit).length < limit
          · simp [hlt] at hnone
          · exact ⟨by omega, s, rfl, by omega⟩
        · rintro ⟨-, t, hts, hlen2⟩
          have hts2 := Option.some.inj hts
          subst hts2
          rw [hlen2]
          simp

/-- Witness for the amended C3: on a full database with `limit = 1` the
iteration-level terminal is absent and the success characterisation holds. -/
theorem c3_witness :
    (1 ≤ 1) ∧
    (iterLevelFin wNoHash wTotalHandler
        ⟨BlockNumberOrHash.number 0, Direction.forward, 1, 1⟩ ≠ some FinV.ok ∧
     (iterLevelFin wNoHash wTotalHandler
          ⟨BlockNumberOrHash.number 0, Direction.forward, 1, 1⟩ = none ↔
       1 ≤ MAX_BLOCKS_COUNT ∧
       ∃ s, get_start_block_number (BlockNumberOrHash.number 0) wNoHash = some s ∧
         (visitedFrom wTotalHandler 1 Direction.forward s 1).length = 1)) :=
  ⟨by decide,
   c3_terminal_fin wNoHash wTotalHandler (BlockNumberOrHash.number 0) Direction.forward 1 1
     (by decide)⟩

/-- C4 counterexample: a request whose start (a hash absent from the
database) does not resolve, but with `limit = 0`, returns `[Fin::ok()]`
rather than `[Fin::unknown()]`: the `limit == 0` early return fires before
start resolution is attempted. -/
theorem c4_counterexample :
    get_start_block_number (BlockNumberOrHash.hash 0) wNoHash = none ∧
    iterate wNoHash wNoneHandler ⟨BlockNumberOrHash.hash 0, Direction.forward, 0, 1⟩
      = [Frame.fin FinV.ok] :=
  ⟨rfl, rfl⟩

/-- C4 (amended): for every iteration request with `limit ≥ 1` whose start
does not resolve to a block number, `iterate` returns exactly
`[Fin::unknown()]`. -/
theorem c4_start_not_found {α : Type} (dbHash : Nat → Option Nat)
    (h : Nat → Option (List (Frame α))) (start : BlockNumberOrHash) (dir : Direction)
    (step limit : Nat) (h1 : 1 ≤ limit)
    (hs : get_start_block_number start dbHash = none) :
    iterate dbHash h ⟨start, dir, limit, step⟩ = [Frame.fin FinV.unknown] := by
  have hne : limit ≠ 0 := by omega
  simp [iterate, iterateCore, hne, hs]

/-- Witness for the amended C4: an absent hash with `limit = 1` yields
`[Fin::unknown()]`. -/
theorem c4_witness :
    (1 ≤ 1) ∧
    (get_start_block_number (BlockNumberOrHash.hash 7) wNoHash = none) ∧
    iterate wNoHash wNoneHandler ⟨BlockNumberOrHash.hash 7, Direction.forward, 1, 1⟩
      = [Frame.fin FinV.unknown] :=
  ⟨by decide, rfl,
   c4_start_not_found wNoHash wNoneHandler (BlockNumberOrHash.hash 7) Direction.forward 1 1
     (by decide) rfl⟩

/-- C5 counterexample: a request with `step = 0` is not rejected: `iterate`
produces a perfectly normal payload response (the same block's group twice),
so "iterate does not produce a normal payload response for step = 0" is
false on the code, which validates `step` nowhere. -/
theorem c5_counterexample :
    iterate wNoHash wBlock5Handler ⟨BlockNumberOrHash.number 5, Direction.forward, 2, 0⟩
      = [Frame.payload 0, Frame.fin FinV.ok, Frame.payload 0, Frame.fin FinV.ok] :=
  rfl

theorem blockNumberNew_lt (bn : Nat) (hbn : bn < 2 ^ 64) : blockNumberNew bn = some bn := by
  rw [blockNumberNew, if_pos hbn]

theorem get_next_block_number_zero_step (bn : Nat) (dir : Direction) (hbn : bn < 2 ^ 64) :
    get_next_block_number bn 0 dir = some bn := by
  cases dir
  · simp only [get_next_block_number, checkedAddU64, Nat.add_zero, if_pos hbn,
      Option.some_bind, blockNumberNew_lt bn hbn]
  · simp only [get_next_block_number, checkedSubU64, if_pos (Nat.zero_le bn),
      Nat.sub_zero, Option.some_bind, blockNumberNew_lt bn hbn]

theorem iterateLoop_zero_step {α : Type} (h : Nat → Option (List (Frame α)))
    (dir : Direction) (s : Nat) (g : List (Frame α)) (hbn : s < 2 ^ 64)
    (hg : h s = some g) :
    ∀ fuel, 1 ≤ fuel →
      iterateLoop h 0 dir s fuel = ((List.replicate fuel g).flatten, none) := by
  intro fuel
  induction fuel with
  | zero => intro hcontra; omega
  | succ r ih =>
    intro _
    by_cases hr : r = 0
    · subst hr
      simp [iterateLoop, hg]
    · have hnext := get_next_block_number_zero_step s dir hbn
      have hrec := ih (by omega)
      simp [iterateLoop, hg, hr, hnext, hrec, List.replicate_succ]

/-- C5 (amended): `iterate` performs no validation of `step`: a request with
`step = 0` is accepted and the walk is stationary — `get_next_block_number`
returns the current block unchanged — so when the start block exists the
response is that block's payload group repeated `limit` times (a normal
payload response with no terminal), not a rejection. -/
theorem c5_step_zero_stationary {α : Type} (dbHash : Nat → Option Nat)
    (h : Nat → Option (List (Frame α))) (start : BlockNumberOrHash) (dir : Direction)
    (limit s : Nat) (g : List (Frame α))
    (h1 : 1 ≤ limit) (h2 : limit ≤ MAX_BLOCKS_COUNT)
    (hs : get_start_block_number start dbHash = some s) (hlt : s < 2 ^ 64)
    (hg : h s = some g) :
    iterate dbHash h ⟨start, dir, limit, 0⟩ = (List.replicate limit g).flatten := by
  have hne : limit ≠ 0 := by omega
  have hnm : ¬ (limit > MAX_BLOCKS_COUNT) := by omega
  have hcore := iterateCore_resolved dbHash h start dir 0 limit s hne hs
  simp only [if_neg hnm] at hcore
  rw [iterate, hcore]
  rw [iterateLoop_zero_step h dir s g hlt hg limit h1]
  simp

/-- Witness for the amended C5: `step = 0`, `limit = 2`, start block 5
present: the response repeats block 5's payload group twice. -/
theorem c5_witness :
    (1 ≤ 2) ∧ (2 ≤ MAX_BLOCKS_COUNT) ∧
    (get_start_block_number (BlockNumberOrHash.number 5) wNoHash = some 5) ∧
    (5 < 2 ^ 64) ∧
    (wBlock5Handler 5 = some [Frame.payload 0, Frame.fin FinV.ok]) ∧
    iterate wNoHash wBlock5Handler ⟨BlockNumberOrHash.number 5, Direction.forward, 2, 0⟩
      = (List.replicate 2 [Frame.payload 0, Frame.fin FinV.ok]).flatten :=
  ⟨by decide, by decide, by rfl, by decide, by rfl,
   c5_step_zero_stationary wNoHash wBlock5Handler (BlockNumberOrHash.number 5)
     Direction.forward 2 5 [Frame.payload 0, Frame.fin FinV.ok]
     (by decide) (by decide) (by rfl) (by decide) (by rfl)⟩

theorem hashChain_updates_spec (H : Nat → Nat → Nat) :
    ∀ (vs : List Nat) (c : HashChain),
      (HashChain.updates H c vs).hash = vs.foldl H c.hash ∧
      (HashChain.updates H c vs).count = c.count + vs.length := by
  intro vs
  induction vs with
  | nil => intro c; simp [HashChain.updates]
  | cons v vs ih =>
    intro c
    have hrec := ih (HashChain.update H c v)
    have h1 : HashChain.updates H c (v :: vs)
        = HashChain.updates H (HashChain.update H c v) vs := rfl
    constructor
    · rw [h1, hrec.1]
      simp [HashChain.update, List.foldl_cons]
    · rw [h1, hrec.2]
      simp only [HashChain.update, List.length_cons]
      omega

/-- C6: after `n` updates the accumulator equals the left-nested chain
`H(…H(H(0, v₁), v₂)…, vₙ)` and the count equals `n`; `finalize` returns
`H(acc, n)` with `n` encoded big-endian into a field element; in particular
`single(v) = H(H(0, v), 1)`. -/
theorem c6_hash_chain (H : Nat → Nat → Nat) (vs : List Nat) (v : Nat)
    (hn : vs.length < 2 ^ 64) :
    (HashChain.updates H HashChain.default vs).hash = vs.foldl H 0 ∧
    (HashChain.updates H HashChain.default vs).count = vs.length ∧
    HashChain.finalize H (HashChain.updates H HashChain.default vs)
      = some (H (vs.foldl H 0) vs.length) ∧
    HashChain.single H v = some (H (H 0 v) 1) := by
  have hspec := hashChain_updates_spec H vs HashChain.default
  have hhash : (HashChain.updates H HashChain.default vs).hash = vs.foldl H 0 := hspec.1
  have hcount : (HashChain.updates H HashChain.default vs).count = vs.length := by
    rw [hspec.2]
    simp [HashChain.default]
  have h256 : (256 : Nat) ^ 8 = 2 ^ 64 := by norm_num
  have hmod : vs.length % 256 ^ 8 = vs.length := by
    rw [h256]
    exact Nat.mod_eq_of_lt hn
  have hfin : feltFromBeSlice (natToBeBytes 8 vs.length) = some vs.length := by
    rw [feltFromBeSlice, if_pos]
    · rw [beBytesVal_natToBeBytes, hmod]
    · refine ⟨by rw [natToBeBytes_length]; omega, ?_⟩
      rw [beBytesVal_natToBeBytes, hmod]
      calc vs.length < 2 ^ 64 := hn
        _ ≤ 2 ^ 251 := by norm_num
  have hfinal : HashChain.finalize H (HashChain.updates H HashChain.default vs)
      = some (H (vs.foldl H 0) vs.length) := by
    rw [HashChain.finalize, hcount, hhash, hfin, Option.map_some']
  have hone : feltFromBeSlice (natToBeBytes 8 1) = some 1 := by decide
  have hsingle : HashChain.single H v = some (H (H 0 v) 1) := by
    show (feltFromBeSlice (natToBeBytes 8 1)).map (H (H 0 v)) = some (H (H 0 v) 1)
    rw [hone, Option.map_some']
  exact ⟨hhash, hcount, hfinal, hsingle⟩

/-- Witness for C6 at `H(a, b) = 3a + b` on the values `[1, 2, 3]`. -/
theorem c6_witness :
    ([1, 2, 3].length < 2 ^ 64) ∧
    ((HashChain.updates (fun a b => a * 3 + b) HashChain.default [1, 2, 3]).hash
        = [1, 2, 3].foldl (fun a b => a * 3 + b) 0 ∧
     (HashChain.updates (fun a b => a * 3 + b) HashChain.default [1, 2, 3]).count
        = [1, 2, 3].length ∧
     HashChain.finalize (fun a b => a * 3 + b)
         (HashChain.updates (fun a b => a * 3 + b) HashChain.default [1, 2, 3])
       = some ((fun a b => a * 3 + b) ([1, 2, 3].foldl (fun a b => a * 3 + b) 0)
           [1, 2, 3].length) ∧
     HashChain.single (fun a b => a * 3 + b) 7
       = some ((fun a b => a * 3 + b) ((fun a b => a * 3 + b) 0 7) 1)) :=
  ⟨by decide, c6_hash_chain (fun a b => a * 3 + b) [1, 2, 3] 7 (by decide)⟩

/-- C7 counterexample: a receipt recording `actual_fee = 2 ^ 128 > 0` with
`gas_price = 1` and `estimated_gas = 0` satisfies the claim's warning
condition (`|actual_gas − estimated| > 0.2 · actual_gas`, i.e.
`5 · diff > actual_gas`), yet the worker does not warn: the fee's low 128
bits are zero, so the pair is silently skipped. -/
theorem c7_counterexample :
    gasMismatchWarn 1 (some (2 ^ 128)) 0 = false ∧
    2 ^ 128 > 0 ∧
    5 * (max (2 ^ 128 / max 1 1) 0 - min (2 ^ 128 / max 1 1) 0)
      > 2 ^ 128 / max 1 1 := by
  refine ⟨?_, by norm_num, by norm_num⟩
  simp only [gasMismatchWarn, feeFromReceipt_eq]
  norm_num

/-- C7 (amended): absent fees and fees whose low 128 bits are zero
(L1-handler receipts record zero) are skipped and never warned about; for a
fee whose truncated value `f = actual_fee mod 2^128` is non-zero and whose
`actual_gas = f / max(gas_price, 1)` stays below `2^127` (so the `u128`
threshold computation does not wrap), the worker warns if and only if
`|actual_gas − estimated_gas| > 0.2 · actual_gas`, i.e.
`5 · |actual_gas − estimated_gas| > actual_gas`. -/
theorem c7_gas_mismatch (gas_price estimated_gas feeFelt : Nat) :
    gasMismatchWarn gas_price none estimated_gas = false ∧
    (feeFelt % 2 ^ 128 = 0 →
      gasMismatchWarn gas_price (some feeFelt) estimated_gas = false) ∧
    (feeFelt % 2 ^ 128 ≠ 0 → feeFelt % 2 ^ 128 / max gas_price 1 < 2 ^ 127 →
      (gasMismatchWarn gas_price (some feeFelt) estimated_gas = true ↔
        5 * (max (feeFelt % 2 ^ 128 / max gas_price 1) estimated_gas
              - min (feeFelt % 2 ^ 128 / max gas_price 1) estimated_gas)
          > feeFelt % 2 ^ 128 / max gas_price 1)) := by
  refine ⟨rfl, ?_, ?_⟩
  · intro h0
    simp only [gasMismatchWarn, feeFromReceipt_eq]
    rw [if_pos h0]
  · intro h0 hag
    have key : ∀ ag d : Nat, ag < 2 ^ 127 →
        (decide (d > ag * 2 % 2 ^ 128 / 10) = true ↔ 5 * d > ag) := by
      intro ag d hlt
      have hmul : ag * 2 % 2 ^ 128 = ag * 2 := Nat.mod_eq_of_lt (by omega)
      rw [hmul]
      simp only [decide_eq_true_eq]
      omega
    have hw : gasMismatchWarn gas_price (some feeFelt) estimated_gas
        = decide ((max (feeFelt % 2 ^ 128 / max gas_price 1) estimated_gas
              - min (feeFelt % 2 ^ 128 / max gas_price 1) estimated_gas)
            > (feeFelt % 2 ^ 128 / max gas_price 1) * 2 % 2 ^ 128 / 10) := by
      simp only [gasMismatchWarn, feeFromReceipt_eq]
      rw [if_neg h0]
    rw [hw]
    exact key _ _ hag

/-- Witness for the amended C7: the absent-fee and zero-fee skips, and the
warning iff at `gas_price = 2`, `fee = 100` (`actual_gas = 50`),
`estimated_gas = 0`. -/
theorem c7_witness :
    gasMismatchWarn 2 none 0 = false ∧
    (gasMismatchWarn 2 (some 0) 0 = false) ∧
    (gasMismatchWarn 2 (some 100) 0 = true ↔
      5 * (max (100 % 2 ^ 128 / max 2 1) 0 - min (100 % 2 ^ 128 / max 2 1) 0)
        > 100 % 2 ^ 128 / max 2 1) :=
  ⟨(c7_gas_mismatch 2 0 0).1,
   (c7_gas_mismatch 2 0 0).2.1 (by decide),
   (c7_gas_mismatch 2 0 100).2.2 (by decide) (by decide)⟩

/-- C8: for every byte stream and negotiated protocol name, both upgrades
immediately yield the stream and the protocol name unchanged, and the
uninhabited error type makes the failure branch unreachable. -/
theorem c8_upgrade_identity : ∀ (S P : Type) (io : S) (p : P),
    upgrade_inbound io p = Except.ok (io, p) ∧
    upgrade_outbound io p = Except.ok (io, p) ∧
    (∀ e : Empty, upgrade_inbound io p ≠ Except.error e) ∧
    (∀ e : Empty, upgrade_outbound io p ≠ Except.error e) :=
  fun _ _ _io _p => ⟨rfl, rfl, fun e => e.elim, fun e => e.elim⟩

/-- Witness for C8 at a concrete stream and protocol name. -/
theorem c8_witness :
    upgrade_inbound (0 : Nat) "sync" = Except.ok (0, "sync") ∧
    upgrade_outbound (0 : Nat) "sync" = Except.ok (0, "sync") :=
  ⟨(c8_upgrade_identity Nat String 0 "sync").1,
   (c8_upgrade_identity Nat String 0 "sync").2.1⟩

theorem beBytesVal_natToBeBytes32 (n : Nat) (hn : n < 2 ^ 251) :
    beBytesVal (natToBeBytes 32 n) = n := by
  rw [beBytesVal_natToBeBytes]
  apply Nat.mod_eq_of_lt
  calc n < 2 ^ 251 := hn
    _ < 256 ^ 32 := by norm_num

/-- C9: for every field element `f`, `f.into_starkfelt().into_felt() = f`,
and symmetrically for every StarkFelt `s`,
`s.into_felt().into_starkfelt() = s` (both conversions succeed and compose to
the identity). -/
theorem c9_felt_roundtrip (f s : Nat) (hf : f < 2 ^ 251) (hs : s < 2 ^ 251) :
    (into_starkfelt f).bind into_felt = some f ∧
    (into_felt s).bind into_starkfelt = some s := by
  have haux : ∀ n, n < 2 ^ 251 → into_starkfelt n = some n := by
    intro n hn
    rw [into_starkfelt, starkFeltNew, if_pos]
    · rw [beBytesVal_natToBeBytes32 n hn]
    · refine ⟨natToBeBytes_length 32 n, ?_⟩
      rw [beBytesVal_natToBeBytes32 n hn]
      exact hn
  have haux2 : ∀ n, n < 2 ^ 251 → into_felt n = some n := by
    intro n hn
    rw [into_felt, feltFromBeSlice, if_pos]
    · rw [beBytesVal_natToBeBytes32 n hn]
    · refine ⟨by rw [natToBeBytes_length], ?_⟩
      rw [beBytesVal_natToBeBytes32 n hn]
      exact hn
  constructor
  · rw [haux f hf, Option.some_bind, haux2 f hf]
  · rw [haux2 s hs, Option.some_bind, haux s hs]

/-- Witness for C9 at the field elements 5 and 7. -/
theorem c9_witness :
    (5 < 2 ^ 251) ∧ (7 < 2 ^ 251) ∧
    ((into_starkfelt 5).bind into_felt = some 5 ∧
     (into_felt 7).bind into_starkfelt = some 7) :=
  ⟨by norm_num, by norm_num, c9_felt_roundtrip 5 7 (by norm_num) (by norm_num)⟩

/-- C10: the re-execution worker reads a receipt's `actual_fee` from the low
16 bytes of the 32-byte big-endian felt encoding, i.e. as
`actual_fee mod 2^128`, so for fees of `2^128` and above the high bits are
silently discarded before the gas comparison: the warning decision only
depends on the truncated value. -/
theorem c10_fee_truncation (feeFelt gas_price estimated_gas : Nat) :
    feeFromReceipt feeFelt = feeFelt % 2 ^ 128 ∧
    gasMismatchWarn gas_price (some feeFelt) estimated_gas
      = gasMismatchWarn gas_price (some (feeFelt % 2 ^ 128)) estimated_gas := by
  refine ⟨feeFromReceipt_eq feeFelt, ?_⟩
  simp only [gasMismatchWarn, feeFromReceipt_eq, Nat.mod_mod_of_dvd feeFelt dvd_rfl]

end Pathfinder
